import Mathlib

/-!
Shallow embedding of the live alignment engine of the sermon-translation
system, covering:

* `ml_pipeline/alignment_module/aligner.py` — normalization, partial-match
  boost, the master similarity score, and `match_spoken_to_segment`;
* `backend/api/routes/live_routes.py` — the per-session processing loop of
  `live_stream` (rolling transcript buffer, forward-only lookahead window,
  dual-candidate matching, match acceptance, catch-up/skip detection) and the
  connected-client reference count.

Python strings are modelled as Lean `String` (a list of characters);
Python floats carrying similarity scores are modelled as exact rationals `ℚ`
(no property below depends on binary floating-point rounding); Python `None`
is modelled with `Option`.  `difflib.SequenceMatcher(None, a, b).ratio()` is
an external standard-library collaborator of the repository's code and is
modelled as an explicit function parameter `sr : String → String → ℚ`; every
theorem below holds for an arbitrary such function.
-/

namespace SermonAlign

/-! ### Python string primitives -/

/-- Python `str.strip()`: remove leading and trailing whitespace. -/
def pyStrip (s : String) : String :=
  String.mk (((s.data.dropWhile Char.isWhitespace).reverse.dropWhile Char.isWhitespace).reverse)

/-- Python `s[-n:]` for `n > 0`: the last `min n (length s)` characters.
Python's `s[-0:]` is the whole string, matching the `n = 0` branch. -/
def pyTakeLast (s : String) (n : Nat) : String :=
  if n = 0 then s else String.mk (s.data.drop (s.data.length - n))

/-- Python `x[-n:]` on lists, with the same `-0` convention as `pyTakeLast`. -/
def pyTakeLastList {α : Type} (l : List α) (n : Nat) : List α :=
  if n = 0 then l else l.drop (l.length - n)

/-- Helper for Python `str.split()` (no separator): accumulate the current
word (reversed) and split on whitespace runs, dropping empty pieces. -/
def pyWordsAux : List Char → List Char → List (List Char)
  | [], acc => if acc = [] then [] else [acc.reverse]
  | c :: cs, acc =>
      if c.isWhitespace then
        if acc = [] then pyWordsAux cs [] else acc.reverse :: pyWordsAux cs []
      else
        pyWordsAux cs (c :: acc)

/-- Python `str.split()` with no separator: whitespace-delimited words,
empty pieces dropped. -/
def pySplit (s : String) : List String :=
  (pyWordsAux s.data []).map String.mk

/-- Python `a in b` on strings: `a` is a contiguous substring of `b`. -/
def pyIn (a b : String) : Bool :=
  (List.range (b.data.length + 1)).any (fun i => List.isPrefixOf a.data (b.data.drop i))

/-- Python `round(x, 3)` modelled on rationals: round `x * 1000` to the
nearest integer, ties to even (Python's banker's rounding), divide back. -/
def roundHalfEven (q : ℚ) : ℤ :=
  let f := ⌊q⌋
  if q - f < 1/2 then f
  else if 1/2 < q - f then f + 1
  else if f % 2 = 0 then f else f + 1

/-- `round(·, 3)` from `aligner.similarity`. -/
def round3 (q : ℚ) : ℚ := (roundHalfEven (q * 1000) : ℚ) / 1000

/-! ### `aligner.py` — normalization and scoring -/

/-- `SYN_MAP` from `aligner.py`. -/
def SYN_MAP : List (String × String) :=
  [("jamaah", "jemaah"), ("muslimin", "muslimin"), ("muslimat", "muslimat"),
   ("hadirin", "hadirin"), ("allah", "allah")]

/-- `STOP` from `aligner.py`. -/
def STOP : List String :=
  ["dan", "yang", "di", "ke", "dari", "pada", "untuk", "dalam",
   "ini", "itu", "para", "jemaah", "sekalian", "akan", "tidak", "dengan"]

/-- `SYN_MAP.get(w, w)`. -/
def synLookup (w : String) : String := (SYN_MAP.lookup w).getD w

/-- A regex `\w` word character: alphanumeric or underscore (ASCII model). -/
def isWordChar (c : Char) : Bool := c.isAlphanum || c = '_'

/-- `_norm` from `aligner.py`: lower-case, replace non-word non-space
characters by a space (`re.sub(r"[^\w\s]", " ", s)`), collapse whitespace
runs and strip (`re.sub(r"\s+", " ", s).strip()`, realized here by splitting
into words and re-joining), then map each word through `SYN_MAP`. -/
def norm (s : String) : String :=
  let s1 := String.mk (s.data.map Char.toLower)
  let s2 := String.mk (s1.data.map (fun c =>
    if !isWordChar c && !c.isWhitespace then ' ' else c))
  String.intercalate " " ((pySplit s2).map synLookup)

/-- `_token_set` from `aligner.py`: the stop-word-filtered token list and
its set of distinct tokens. -/
def token_set (s : String) : Finset String × List String :=
  let toks := (pySplit s).filter (fun t => t ≠ "" && !(STOP.contains t))
  (toks.toFinset, toks)

/-- `_jaccard` from `aligner.py`. -/
def jaccard (sa sb : Finset String) : ℚ :=
  if sa = ∅ ∨ sb = ∅ then 0
  else ((sa ∩ sb).card : ℚ) / ((sa ∪ sb).card : ℚ)

/-- `_length_factor` from `aligner.py`. -/
def length_factor (ta tb : List String) : ℚ :=
  if ta.length = 0 ∨ tb.length = 0 then 0
  else (min ta.length tb.length : ℚ) / (max ta.length tb.length : ℚ)

/-- `_partial_boost` from `aligner.py`: +0.25 when the (normalized) spoken
text is a contiguous substring of the candidate, a smaller tiered boost from
the fraction of spoken words occurring among the candidate's words, and no
boost at all when the spoken text is shorter than 6 characters. -/
def partial_boost (a b : String) : ℚ :=
  if a.length < 6 then 0
  else if pyIn a b then 1/4
  else
    let a_words := pySplit a
    let b_words := pySplit b
    let overlap := a_words.countP (fun w => b_words.contains w)
    let ratio : ℚ := (overlap : ℚ) / (max 1 a_words.length : ℚ)
    if 3/4 ≤ ratio then 3/20
    else if 1/2 ≤ ratio then 1/10
    else 0

/-- `similarity` from `aligner.py`; `sr` models
`difflib.SequenceMatcher(None, a, b).ratio()` (`_seq_ratio`). -/
def similarity (sr : String → String → ℚ) (spoken cand : String) : ℚ :=
  let a := norm spoken
  let b := norm cand
  if a = "" ∨ b = "" then 0
  else
    let sa := (token_set a).1
    let ta := (token_set a).2
    let sb := (token_set b).1
    let tb := (token_set b).2
    let seq := sr a b
    let jac := jaccard sa sb
    let lenf := length_factor ta tb
    let part := partial_boost a b
    round3 (min 1 (max 0 (45/100 * seq + 30/100 * jac + 15/100 * lenf + part)))

/-! ### `aligner.py` — main matching -/

/-- A vetted sermon segment as read by the live route
(`backend.db.models.Segment`, restricted to the fields the engine uses). -/
structure Segment where
  segment_id : ℤ
  segment_order : ℤ
  malay_text : Option String
  english_text : Option String
deriving Repr, DecidableEq

/-- The quadruple returned by `match_spoken_to_segment`:
`(segment | None, best score, best candidate id | None, best candidate order | None)`. -/
structure MatchResult where
  seg : Option Segment
  score : ℚ
  seg_id : Option ℤ
  seg_order : Option ℤ
deriving Repr, DecidableEq

/-- `(seg.malay_text or "").strip()` from `match_spoken_to_segment`. -/
def candOf (s : Segment) : String := pyStrip (s.malay_text.getD "")

/-- One iteration of the accumulator loop of `match_spoken_to_segment`:
skip blank candidates, update `(best_seg, best_score)` only on a strictly
larger score. -/
def bestStep (sr : String → String → ℚ) (spoken : String)
    (acc : Option Segment × ℚ) (seg : Segment) : Option Segment × ℚ :=
  if candOf seg = "" then acc
  else
    let sc := similarity sr spoken (candOf seg)
    if acc.2 < sc then (some seg, sc) else acc

/-- The accumulator loop of `match_spoken_to_segment`, starting from
`best_seg = None`, `best_score = 0.0`. -/
def bestFold (sr : String → String → ℚ) (spoken : String)
    (segs : List Segment) : Option Segment × ℚ :=
  segs.foldl (bestStep sr spoken) (none, 0)

/-- `match_spoken_to_segment` from `aligner.py`.  Python's
`if not spoken_text or not segments` guard is the first branch; the final
`getattr(best_seg, ..., None)` fallbacks are the `none` cases. -/
def match_spoken_to_segment (sr : String → String → ℚ) (spoken_text : String)
    (segments : List Segment) (min_score : ℚ) : MatchResult :=
  if spoken_text = "" ∨ segments = [] then ⟨none, 0, none, none⟩
  else
    let best := bestFold sr spoken_text segments
    match best.1 with
    | some s =>
        if min_score ≤ best.2 then ⟨some s, best.2, some s.segment_id, some s.segment_order⟩
        else ⟨none, best.2, some s.segment_id, some s.segment_order⟩
    | none => ⟨none, best.2, none, none⟩

/-! ### `live_routes.py` — the per-session processing loop -/

/-- The configuration surface of the live loop
(`BUFFER_MAX_CHUNKS`, `BUFFER_MAX_CHARS`, `LOOKAHEAD_LIMIT`,
`STATIC_THRESHOLD`; defaults 5, 400, 10, 0.45). -/
structure Config where
  maxChunks : ℕ
  maxChars : ℕ
  lookahead : ℕ
  thresh : ℚ
deriving Repr, DecidableEq

/-- Per-session mutable state of the loop: the forward-only cursor
`last_matched_order` and the rolling chunk buffer `asr_buffer_chunks`. -/
structure SessionState where
  lastMatchedOrder : ℤ
  bufferChunks : List String
deriving Repr, DecidableEq

/-- `last_matched_order = -1`, `asr_buffer_chunks = []` at session start. -/
def initState : SessionState := ⟨-1, []⟩

/-- A skipped / matched segment as serialized into the outbound payload. -/
structure SegmentOut where
  segment_id : ℤ
  order : ℤ
  malay_text : Option String
  english_text : Option String
deriving Repr, DecidableEq

/-- Serialization of a segment into the payload dictionaries. -/
def segOut (s : Segment) : SegmentOut :=
  ⟨s.segment_id, s.segment_order, s.malay_text, s.english_text⟩

/-- One outbound websocket payload (one Alignment Event). -/
structure Payload where
  spoken : String
  buffer_text : String
  buffer_chunks : ℕ
  score : ℚ
  matched : Bool
  threshold : ℚ
  candidate_id : Option ℤ
  candidate_order : Option ℤ
  segment : Option SegmentOut
  skipped_segments : List SegmentOut
deriving Repr, DecidableEq

/-- Chunk-count cap: `asr_buffer_chunks = asr_buffer_chunks[-BUFFER_MAX_CHUNKS:]`
when the count exceeds `BUFFER_MAX_CHUNKS`. -/
def trimChunks (cfg : Config) (chunks : List String) : List String :=
  if cfg.maxChunks < chunks.length then pyTakeLastList chunks cfg.maxChunks
  else chunks

/-- Character cap on the joined buffer text:
`buffer_text = " ".join(chunks).strip()`, then keep the trailing
`BUFFER_MAX_CHARS` characters when too long. -/
def bufferTextOf (cfg : Config) (chunks : List String) : String :=
  let bt := pyStrip (String.intercalate " " chunks)
  if cfg.maxChars < bt.length then pyTakeLast bt cfg.maxChars else bt

/-- The forward-only lookahead window: segments with
`segment_order > last_matched_order`, truncated to `LOOKAHEAD_LIMIT`. -/
def lookaheadOf (cfg : Config) (segments : List Segment) (last : ℤ) : List Segment :=
  let w := segments.filter (fun s => last < s.segment_order)
  if cfg.lookahead < w.length then w.take cfg.lookahead else w

/-- `if best_score_buf >= best_score_single: buffer candidate else single`. -/
def chooseCandidate (rbuf rsingle : MatchResult) : MatchResult :=
  if rsingle.score ≤ rbuf.score then rbuf else rsingle

/-- The catch-up detector's enumeration: all segments of the document whose
order lies strictly between the old cursor `k` and the new cursor `m`, in
document-list order, serialized for the payload.  A pure function of
`(old cursor, new cursor, segment sequence)`. -/
def skippedOf (k m : ℤ) (segments : List Segment) : List SegmentOut :=
  (segments.filter (fun s => k < s.segment_order ∧ s.segment_order < m)).map segOut

/-- The chunk list after appending the stripped incoming chunk and applying
the chunk-count cap. -/
def stepChunks (cfg : Config) (st : SessionState) (c : String) : List String :=
  trimChunks cfg (st.bufferChunks ++ [pyStrip c])

/-- The joined, character-capped rolling buffer text of this cycle. -/
def stepBufText (cfg : Config) (st : SessionState) (c : String) : String :=
  bufferTextOf cfg (stepChunks cfg st c)

/-- This cycle's lookahead window. -/
def stepWindow (cfg : Config) (segments : List Segment) (st : SessionState) :
    List Segment :=
  lookaheadOf cfg segments st.lastMatchedOrder

/-- The cycle's chosen candidate: the matcher is run once on the rolling
buffer text and once on the single latest chunk, both over the same
lookahead window with `min_score=0.0`, and the buffer candidate wins ties. -/
def stepCand (cfg : Config) (sr : String → String → ℚ) (segments : List Segment)
    (st : SessionState) (c : String) : MatchResult :=
  chooseCandidate
    (match_spoken_to_segment sr (stepBufText cfg st c) (stepWindow cfg segments st) 0)
    (match_spoken_to_segment sr c (stepWindow cfg segments st) 0)

/-- The acceptance test
`if chosen_seg and chosen_order and chosen_order > last_matched_order:
   if chosen_score >= static_thresh: matched = True`.
Note Python truthiness: `chosen_order` is falsy both when it is `None` and
when it equals `0`, so the embedded test requires `o ≠ 0`. -/
def stepMatched (cfg : Config) (sr : String → String → ℚ) (segments : List Segment)
    (st : SessionState) (c : String) : Bool :=
  match (stepCand cfg sr segments st c).seg, (stepCand cfg sr segments st c).seg_order with
  | some _, some o =>
      decide (o ≠ 0) && decide (st.lastMatchedOrder < o) &&
        decide (cfg.thresh ≤ (stepCand cfg sr segments st c).score)
  | _, _ => false

/-- The payload as first assembled, before the matched-branch enrichment. -/
def basePayload (cfg : Config) (sr : String → String → ℚ) (segments : List Segment)
    (st : SessionState) (c : String) : Payload :=
  { spoken := c
    buffer_text := stepBufText cfg st c
    buffer_chunks := (stepChunks cfg st c).length
    score := round3 (stepCand cfg sr segments st c).score
    matched := stepMatched cfg sr segments st c
    threshold := cfg.thresh
    candidate_id := (stepCand cfg sr segments st c).seg_id
    candidate_order := (stepCand cfg sr segments st c).seg_order
    segment := none
    skipped_segments := [] }

/-- One full processing cycle of the live loop body (lines 400–507 of
`live_routes.py`): push the chunk, match, accept or reject, enumerate
skipped segments, advance the cursor and flush the buffer on acceptance. -/
def step (cfg : Config) (sr : String → String → ℚ) (segments : List Segment)
    (st : SessionState) (c : String) : SessionState × Payload :=
  match (stepCand cfg sr segments st c).seg, (stepCand cfg sr segments st c).seg_order,
      stepMatched cfg sr segments st c with
  | some s, some o, true =>
      (⟨s.segment_order, []⟩,
       { basePayload cfg sr segments st c with
           segment := some (segOut s)
           skipped_segments :=
             if st.lastMatchedOrder + 1 < o then skippedOf st.lastMatchedOrder o segments
             else [] })
  | _, _, _ => (⟨st.lastMatchedOrder, stepChunks cfg st c⟩, basePayload cfg sr segments st c)

/-- Run the session loop over a list of arriving chunks, producing the final
state and the emitted payloads in order. -/
def run (cfg : Config) (sr : String → String → ℚ) (segments : List Segment) :
    SessionState → List String → SessionState × List Payload
  | st, [] => (st, [])
  | st, c :: cs =>
      let p := step cfg sr segments st c
      let r := run cfg sr segments p.1 cs
      (r.1, p.2 :: r.2)

/-- The trace of cursor values: the cursor before processing each chunk, plus
the final cursor. -/
def runCursors (cfg : Config) (sr : String → String → ℚ) (segments : List Segment) :
    SessionState → List String → List ℤ
  | st, [] => [st.lastMatchedOrder]
  | st, c :: cs => st.lastMatchedOrder :: runCursors cfg sr segments (step cfg sr segments st c).1 cs

/-- The accepted `segment_order` values, in emission order. -/
def acceptedOrders (events : List Payload) : List ℤ :=
  events.filterMap (fun e => if e.matched then e.segment.map (fun o => o.order) else none)

/-! ### `live_routes.py` — connected-client reference count -/

/-- A session-boundary operation on the shared connected-client count. -/
inductive ClientOp where
  | acquire
  | release
deriving Repr, DecidableEq

/-- One mutation of `_connected_clients`, performed under
`_connected_clients_lock`: connect increments; disconnect decrements only
when the count is positive (lines 329–331 and 551–554). -/
def applyClientOp (n : ℤ) : ClientOp → ℤ
  | .acquire => n + 1
  | .release => if 0 < n then n - 1 else n

/-- The count after a serialized interleaving of session starts and ends,
from the process-start value `0`. -/
def runClients (ops : List ClientOp) : ℤ := ops.foldl applyClientOp 0

/-- The buffer character-cap policy as the spec words it (§4.3), for
comparison with the code's `bufferTextOf`: "if the joined text exceeds the
configured character cap, drop whole oldest chunks (not mid-chunk
truncation... unless even the single newest chunk exceeds the cap, in which
case truncate from the start of the joined string, keeping the most recent
characters) until within cap". -/
def bufferTextSpec (cap : ℕ) : List String → String
  | [] => ""
  | ch :: cs =>
      let joined := pyStrip (String.intercalate " " (ch :: cs))
      if joined.length ≤ cap then joined
      else if cs = [] then pyTakeLast joined cap
      else bufferTextSpec cap cs

/-! ### Concrete instances used by witnesses and counterexamples -/

/-- The default configuration: `BUFFER_MAX_CHUNKS=5`, `BUFFER_MAX_CHARS=400`,
`LOOKAHEAD_LIMIT=10`, `LIVE_INITIAL_THRESHOLD=0.45`. -/
def cfg0 : Config := ⟨5, 400, 10, 45/100⟩

/-- The default configuration with a character cap of 6, to exercise the
buffer truncation policy on short strings. -/
def cfg4 : Config := ⟨5, 6, 10, 45/100⟩

/-- A degenerate sequence-similarity oracle: every pair scores `1.0`. -/
def srOne : String → String → ℚ := fun _ _ => 1

/-- A degenerate sequence-similarity oracle: every pair scores `0.0`. -/
def srZero : String → String → ℚ := fun _ _ => 0

/-- A segment with `segment_order = 0` (orders are `≥ 0` in the data model;
CSV upload inserts whatever order the file carries). -/
def seg0 : Segment := ⟨7, 0, some "selamat pagi semua", none⟩

/-- A three-segment document with orders 1, 2, 3 and pairwise-disjoint
vocabularies. -/
def segsW : List Segment :=
  [⟨1, 1, some "aaaaaa", none⟩, ⟨2, 2, some "cccccc", none⟩, ⟨3, 3, some "eeeeee", none⟩]

/-- A single already-passed segment (for the empty-window scenario). -/
def seg7 : Segment := ⟨1, 1, some "abcdef", none⟩

/-- A one-segment window whose best score will fall below a high threshold. -/
def segs9 : List Segment := [⟨4, 2, some "abcdef", none⟩]

/-- A window holding a whitespace-only segment followed by a matchable one. -/
def segs10 : List Segment := [⟨5, 1, some "   ", none⟩, ⟨6, 2, some "ab", none⟩]

/-! ### Arithmetic and scoring lemmas -/

theorem roundHalfEven_nonneg {q : ℚ} (h : 0 ≤ q) : 0 ≤ roundHalfEven q := by
  have hf : (0 : ℤ) ≤ ⌊q⌋ := Int.floor_nonneg.mpr h
  unfold roundHalfEven
  dsimp only
  split_ifs <;> omega

theorem round3_nonneg {q : ℚ} (h : 0 ≤ q) : 0 ≤ round3 q := by
  have h1 : (0 : ℚ) ≤ q * 1000 := by positivity
  have h2 : (0 : ℤ) ≤ roundHalfEven (q * 1000) := roundHalfEven_nonneg h1
  unfold round3
  have h3 : (0 : ℚ) ≤ (roundHalfEven (q * 1000) : ℚ) := by exact_mod_cast h2
  positivity

theorem similarity_nonneg (sr : String → String → ℚ) (a b : String) :
    0 ≤ similarity sr a b := by
  by_cases h : norm a = "" ∨ norm b = ""
  · simp [similarity, h]
  · simp only [similarity, h, if_false]
    exact round3_nonneg (le_min (by norm_num) (le_max_left 0 _))

theorem norm_empty : norm "" = "" := by decide

theorem similarity_blank (sr : String → String → ℚ) (spoken : String) :
    similarity sr spoken "" = 0 := by
  simp [similarity, norm_empty]

/-! ### `bestFold` specification -/

theorem bestStep_le (sr : String → String → ℚ) (spoken : String)
    (acc : Option Segment × ℚ) (s : Segment) :
    acc.2 ≤ (bestStep sr spoken acc s).2 := by
  by_cases hb : candOf s = ""
  · simp [bestStep, hb]
  · by_cases hlt : acc.2 < similarity sr spoken (candOf s)
    · have hacc : bestStep sr spoken acc s = (some s, similarity sr spoken (candOf s)) := by
        simp [bestStep, hb, hlt]
      rw [hacc]
      exact le_of_lt hlt
    · have hacc : bestStep sr spoken acc s = acc := by simp [bestStep, hb, hlt]
      rw [hacc]

theorem bestFold_go_le (sr : String → String → ℚ) (spoken : String) :
    ∀ (segs : List Segment) (acc : Option Segment × ℚ),
      acc.2 ≤ (List.foldl (bestStep sr spoken) acc segs).2
  | [], acc => le_refl _
  | s :: rest, acc => by
      simpa using le_trans (bestStep_le sr spoken acc s)
        (bestFold_go_le sr spoken rest (bestStep sr spoken acc s))

/-- Full characterization of the accumulator fold: from any start, the fold
either returns the accumulator unchanged, or returns some non-blank segment
of the list together with its similarity score, strictly improving on the
accumulator; and the result bounds every non-blank segment's score. -/
theorem bestFold_go (sr : String → String → ℚ) (spoken : String) :
    ∀ (segs : List Segment) (acc : Option Segment × ℚ),
      (List.foldl (bestStep sr spoken) acc segs = acc ∨
        ∃ t ∈ segs, candOf t ≠ "" ∧
          (List.foldl (bestStep sr spoken) acc segs).1 = some t ∧
          (List.foldl (bestStep sr spoken) acc segs).2 = similarity sr spoken (candOf t) ∧
          acc.2 < (List.foldl (bestStep sr spoken) acc segs).2) ∧
      ∀ u ∈ segs, candOf u ≠ "" →
        similarity sr spoken (candOf u) ≤ (List.foldl (bestStep sr spoken) acc segs).2
  | [], acc => by simp
  | s :: rest, acc => by
      have ih := bestFold_go sr spoken rest (bestStep sr spoken acc s)
      have ihle := bestFold_go_le sr spoken rest (bestStep sr spoken acc s)
      simp only [List.foldl_cons]
      by_cases hb : candOf s = ""
      · have hacc : bestStep sr spoken acc s = acc := by simp [bestStep, hb]
        rw [hacc] at ih ihle ⊢
        constructor
        · rcases ih.1 with h | ⟨t, ht, hnb, h1, h2, h3⟩
          · exact Or.inl h
          · exact Or.inr ⟨t, List.mem_cons_of_mem s ht, hnb, h1, h2, h3⟩
        · intro u hu hnbu
          rcases List.mem_cons.mp hu with rfl | hu'
          · exact absurd hb hnbu
          · exact ih.2 u hu' hnbu
      · by_cases hlt : acc.2 < similarity sr spoken (candOf s)
        · have hacc : bestStep sr spoken acc s = (some s, similarity sr spoken (candOf s)) := by
            simp [bestStep, hb, hlt]
          rw [hacc] at ih ihle ⊢
          constructor
          · rcases ih.1 with h | ⟨t, ht, hnb, h1, h2, h3⟩
            · refine Or.inr ⟨s, List.mem_cons_self s rest, hb, ?_, ?_, ?_⟩
              · rw [h]
              · rw [h]
              · rw [h]; exact hlt
            · refine Or.inr ⟨t, List.mem_cons_of_mem s ht, hnb, h1, h2, ?_⟩
              exact lt_trans hlt h3
          · intro u hu hnbu
            rcases List.mem_cons.mp hu with rfl | hu'
            · exact ihle
            · exact ih.2 u hu' hnbu
        · have hacc : bestStep sr spoken acc s = acc := by
            simp [bestStep, hb, hlt]
          rw [hacc] at ih ihle ⊢
          constructor
          · rcases ih.1 with h | ⟨t, ht, hnb, h1, h2, h3⟩
            · exact Or.inl h
            · exact Or.inr ⟨t, List.mem_cons_of_mem s ht, hnb, h1, h2, h3⟩
          · intro u hu hnbu
            rcases List.mem_cons.mp hu with rfl | hu'
            · exact le_trans (le_of_not_lt hlt) ihle
            · exact ih.2 u hu' hnbu

theorem bestFold_nonneg (sr : String → String → ℚ) (spoken : String)
    (segs : List Segment) : 0 ≤ (bestFold sr spoken segs).2 :=
  bestFold_go_le sr spoken segs (none, 0)

/-- When the fold selects a segment, it is a non-blank member of the list,
the score is its similarity, and the score is strictly positive. -/
theorem bestFold_some (sr : String → String → ℚ) (spoken : String)
    (segs : List Segment) (s : Segment)
    (h : (bestFold sr spoken segs).1 = some s) :
    s ∈ segs ∧ candOf s ≠ "" ∧
      (bestFold sr spoken segs).2 = similarity sr spoken (candOf s) ∧
      0 < (bestFold sr spoken segs).2 := by
  rcases (bestFold_go sr spoken segs (none, 0)).1 with heq | ⟨t, ht, hnb, h1, h2, h3⟩
  · rw [bestFold] at h
    rw [heq] at h
    exact absurd h (by simp)
  · rw [bestFold] at h
    rw [h1] at h
    obtain rfl : t = s := by injection h
    exact ⟨ht, hnb, h2, h3⟩

/-- When the fold selects nothing, the best score is `0.0`. -/
theorem bestFold_none (sr : String → String → ℚ) (spoken : String)
    (segs : List Segment) (h : (bestFold sr spoken segs).1 = none) :
    (bestFold sr spoken segs).2 = 0 := by
  rcases (bestFold_go sr spoken segs (none, 0)).1 with heq | ⟨t, _, _, h1, _, _⟩
  · rw [bestFold, heq]
  · rw [bestFold] at h
    rw [h1] at h
    exact absurd h (by simp)

/-- The fold's score bounds every segment's score, blank candidates
included (those score `0.0`). -/
theorem bestFold_ub (sr : String → String → ℚ) (spoken : String)
    (segs : List Segment) (u : Segment) (hu : u ∈ segs) :
    similarity sr spoken (candOf u) ≤ (bestFold sr spoken segs).2 := by
  by_cases hb : candOf u = ""
  · rw [hb, similarity_blank]
    exact bestFold_nonneg sr spoken segs
  · exact (bestFold_go sr spoken segs (none, 0)).2 u hu hb

/-- If some segment scores strictly above `0.0`, the fold selects a segment. -/
theorem bestFold_isSome (sr : String → String → ℚ) (spoken : String)
    (segs : List Segment) (s : Segment) (hs : s ∈ segs)
    (hpos : 0 < similarity sr spoken (candOf s)) :
    ∃ t, (bestFold sr spoken segs).1 = some t := by
  cases h : (bestFold sr spoken segs).1 with
  | some t => exact ⟨t, rfl⟩
  | none =>
      have h0 := bestFold_none sr spoken segs h
      have := bestFold_ub sr spoken segs s hs
      rw [h0] at this
      exact absurd (lt_of_lt_of_le hpos this) (lt_irrefl 0)

/-! ### `match_spoken_to_segment` lemmas -/

/-- Whenever the matcher returns a segment, the returned id and order are
that segment's id and order, and the returned score is the best fold score. -/
theorem match_pairing (sr : String → String → ℚ) (spoken : String)
    (segs : List Segment) (ms : ℚ) (s : Segment)
    (h : (match_spoken_to_segment sr spoken segs ms).seg = some s) :
    (match_spoken_to_segment sr spoken segs ms).seg_id = some s.segment_id ∧
    (match_spoken_to_segment sr spoken segs ms).seg_order = some s.segment_order ∧
    (match_spoken_to_segment sr spoken segs ms).score = (bestFold sr spoken segs).2 ∧
    (bestFold sr spoken segs).1 = some s ∧ ms ≤ (bestFold sr spoken segs).2 := by
  by_cases hg : spoken = "" ∨ segs = []
  · simp only [match_spoken_to_segment, if_pos hg] at h
    exact absurd h (by simp)
  · simp only [match_spoken_to_segment, if_neg hg] at h ⊢
    cases hb : (bestFold sr spoken segs).1 with
    | none =>
        rw [hb] at h
        dsimp only at h
        exact absurd h (by simp)
    | some s' =>
        rw [hb] at h
        dsimp only at h ⊢
        by_cases hms : ms ≤ (bestFold sr spoken segs).2
        · rw [if_pos hms] at h ⊢
          dsimp only at h ⊢
          obtain rfl : s' = s := by injection h
          exact ⟨rfl, rfl, rfl, rfl, hms⟩
        · rw [if_neg hms] at h
          dsimp only at h
          exact absurd h (by simp)

/-- Whenever the matcher returns a candidate id, some non-blank segment of
the list carries that id, the returned order is its order and the returned
score is its (positive) similarity. -/
theorem match_id_source (sr : String → String → ℚ) (spoken : String)
    (segs : List Segment) (ms : ℚ) (i : ℤ)
    (h : (match_spoken_to_segment sr spoken segs ms).seg_id = some i) :
    ∃ t ∈ segs, candOf t ≠ "" ∧ t.segment_id = i ∧
      (match_spoken_to_segment sr spoken segs ms).seg_order = some t.segment_order ∧
      (match_spoken_to_segment sr spoken segs ms).score =
        similarity sr spoken (candOf t) ∧
      0 < similarity sr spoken (candOf t) := by
  by_cases hg : spoken = "" ∨ segs = []
  · simp only [match_spoken_to_segment, if_pos hg] at h
    exact absurd h (by simp)
  · simp only [match_spoken_to_segment, if_neg hg] at h ⊢
    cases hb : (bestFold sr spoken segs).1 with
    | none =>
        rw [hb] at h
        dsimp only at h
        exact absurd h (by simp)
    | some s' =>
        have hspec := bestFold_some sr spoken segs s' hb
        rw [hb] at h
        dsimp only at h ⊢
        by_cases hms : ms ≤ (bestFold sr spoken segs).2
        · rw [if_pos hms] at h ⊢
          dsimp only at h ⊢
          obtain rfl : s'.segment_id = i := by injection h
          refine ⟨s', hspec.1, hspec.2.1, rfl, rfl, hspec.2.2.1, ?_⟩
          rw [← hspec.2.2.1]; exact hspec.2.2.2
        · rw [if_neg hms] at h ⊢
          dsimp only at h ⊢
          obtain rfl : s'.segment_id = i := by injection h
          refine ⟨s', hspec.1, hspec.2.1, rfl, rfl, hspec.2.2.1, ?_⟩
          rw [← hspec.2.2.1]; exact hspec.2.2.2

/-- The matcher never returns a blank-text segment. -/
theorem match_seg_nonblank (sr : String → String → ℚ) (spoken : String)
    (segs : List Segment) (ms : ℚ) (s : Segment)
    (h : (match_spoken_to_segment sr spoken segs ms).seg = some s) :
    s ∈ segs ∧ candOf s ≠ "" := by
  have h2 := (match_pairing sr spoken segs ms s h).2.2.2.1
  have h3 := bestFold_some sr spoken segs s h2
  exact ⟨h3.1, h3.2.1⟩

/-- The matcher on an empty window (or empty spoken text) returns
`(None, 0.0, None, None)`. -/
theorem match_empty (sr : String → String → ℚ) (spoken : String) (ms : ℚ) :
    match_spoken_to_segment sr spoken [] ms = ⟨none, 0, none, none⟩ := by
  unfold match_spoken_to_segment
  simp

/-! ### Step lemmas -/

/-- The chosen candidate is one of the two matcher results. -/
theorem chooseCandidate_cases (r1 r2 : MatchResult) :
    chooseCandidate r1 r2 = r1 ∨ chooseCandidate r1 r2 = r2 := by
  unfold chooseCandidate
  split
  · exact Or.inl rfl
  · exact Or.inr rfl

/-- The cycle's chosen candidate pairs its fields: a returned segment comes
with its own id and order. -/
theorem stepCand_pairing (cfg : Config) (sr : String → String → ℚ)
    (segments : List Segment) (st : SessionState) (c : String) (s : Segment)
    (h : (stepCand cfg sr segments st c).seg = some s) :
    (stepCand cfg sr segments st c).seg_id = some s.segment_id ∧
    (stepCand cfg sr segments st c).seg_order = some s.segment_order ∧
    s ∈ stepWindow cfg segments st ∧ candOf s ≠ "" := by
  unfold stepCand at h ⊢
  rcases chooseCandidate_cases
      (match_spoken_to_segment sr (stepBufText cfg st c) (stepWindow cfg segments st) 0)
      (match_spoken_to_segment sr c (stepWindow cfg segments st) 0) with hc | hc <;>
    rw [hc] at h ⊢
  · have hp := match_pairing sr (stepBufText cfg st c) (stepWindow cfg segments st) 0 s h
    have hnb := match_seg_nonblank sr (stepBufText cfg st c) (stepWindow cfg segments st) 0 s h
    exact ⟨hp.1, hp.2.1, hnb.1, hnb.2⟩
  · have hp := match_pairing sr c (stepWindow cfg segments st) 0 s h
    have hnb := match_seg_nonblank sr c (stepWindow cfg segments st) 0 s h
    exact ⟨hp.1, hp.2.1, hnb.1, hnb.2⟩

/-- Unfolding of a successful acceptance test. -/
theorem stepMatched_true (cfg : Config) (sr : String → String → ℚ)
    (segments : List Segment) (st : SessionState) (c : String)
    (h : stepMatched cfg sr segments st c = true) :
    ∃ s, (stepCand cfg sr segments st c).seg = some s ∧
      (stepCand cfg sr segments st c).seg_order = some s.segment_order ∧
      s.segment_order ≠ 0 ∧ st.lastMatchedOrder < s.segment_order ∧
      cfg.thresh ≤ (stepCand cfg sr segments st c).score := by
  unfold stepMatched at h
  split at h
  · rename_i s o hs ho
    have hp := stepCand_pairing cfg sr segments st c s hs
    have hoo : o = s.segment_order := by
      rw [hp.2.1] at ho
      injection ho with hval
      exact hval.symm
    subst hoo
    simp only [Bool.and_eq_true, decide_eq_true_eq] at h
    exact ⟨s, hs, hp.2.1, h.1.1, h.1.2, h.2⟩
  · exact absurd h (by simp)

/-- The emitted payload's `matched` field is the acceptance test's result. -/
theorem step_matched_field (cfg : Config) (sr : String → String → ℚ)
    (segments : List Segment) (st : SessionState) (c : String) :
    (step cfg sr segments st c).2.matched = stepMatched cfg sr segments st c := by
  unfold step
  split
  · rename_i heq
    simp [basePayload, heq]
  · simp [basePayload]

/-- A rejected cycle leaves the cursor unchanged and keeps the buffer. -/
theorem step_not_matched (cfg : Config) (sr : String → String → ℚ)
    (segments : List Segment) (st : SessionState) (c : String)
    (h : stepMatched cfg sr segments st c = false) :
    step cfg sr segments st c =
      (⟨st.lastMatchedOrder, stepChunks cfg st c⟩, basePayload cfg sr segments st c) := by
  unfold step
  split
  · rename_i heq
    rw [h] at heq
    exact absurd heq (by simp)
  · rfl

/-- An accepted cycle: the chosen segment exists, the cursor advances to its
order, the buffer is flushed, and the payload carries the segment and the
catch-up list. -/
theorem step_of_matched (cfg : Config) (sr : String → String → ℚ)
    (segments : List Segment) (st : SessionState) (c : String)
    (h : stepMatched cfg sr segments st c = true) :
    ∃ s, (stepCand cfg sr segments st c).seg = some s ∧
      st.lastMatchedOrder < s.segment_order ∧ s.segment_order ≠ 0 ∧
      cfg.thresh ≤ (stepCand cfg sr segments st c).score ∧
      step cfg sr segments st c =
        (⟨s.segment_order, []⟩,
         { basePayload cfg sr segments st c with
             segment := some (segOut s)
             skipped_segments :=
               if st.lastMatchedOrder + 1 < s.segment_order then
                 skippedOf st.lastMatchedOrder s.segment_order segments
               else [] }) := by
  obtain ⟨s, hs, ho, hnz, hlt, hth⟩ := stepMatched_true cfg sr segments st c h
  refine ⟨s, hs, hlt, hnz, hth, ?_⟩
  unfold step
  rw [hs, ho, h]

/-- The cursor never moves backwards in a single cycle. -/
theorem step_cursor_le (cfg : Config) (sr : String → String → ℚ)
    (segments : List Segment) (st : SessionState) (c : String) :
    st.lastMatchedOrder ≤ (step cfg sr segments st c).1.lastMatchedOrder := by
  cases h : stepMatched cfg sr segments st c with
  | false => rw [step_not_matched cfg sr segments st c h]
  | true =>
      obtain ⟨s, _, hlt, _, _, hstep⟩ := step_of_matched cfg sr segments st c h
      rw [hstep]
      exact le_of_lt hlt

/-- The head of the cursor trace is the starting cursor. -/
theorem runCursors_head (cfg : Config) (sr : String → String → ℚ)
    (segments : List Segment) (st : SessionState) (cs : List String) :
    (runCursors cfg sr segments st cs).head? = some st.lastMatchedOrder := by
  cases cs <;> rfl

/-- Combined loop invariant: the cursor trace is non-decreasing, the
accepted orders form a strictly increasing chain, and every accepted order
lies strictly above the starting cursor. -/
theorem run_invariant (cfg : Config) (sr : String → String → ℚ)
    (segments : List Segment) :
    ∀ (cs : List String) (st : SessionState),
      List.Chain' (· ≤ ·) (runCursors cfg sr segments st cs) ∧
      List.Chain' (· < ·) (acceptedOrders (run cfg sr segments st cs).2) ∧
      ∀ m ∈ acceptedOrders (run cfg sr segments st cs).2, st.lastMatchedOrder < m
  | [], st => by
      refine ⟨List.chain'_singleton _, ?_, ?_⟩
      · simp [run, acceptedOrders]
      · simp [run, acceptedOrders]
  | c :: cs, st => by
      have ih := run_invariant cfg sr segments cs (step cfg sr segments st c).1
      have hcur := step_cursor_le cfg sr segments st c
      have hchain : List.Chain' (· ≤ ·) (runCursors cfg sr segments st (c :: cs)) := by
        rw [show runCursors cfg sr segments st (c :: cs) =
            st.lastMatchedOrder ::
              runCursors cfg sr segments (step cfg sr segments st c).1 cs from rfl]
        refine List.chain'_cons'.mpr ⟨?_, ih.1⟩
        intro y hy
        rw [runCursors_head cfg sr segments (step cfg sr segments st c).1 cs] at hy
        obtain rfl : y = (step cfg sr segments st c).1.lastMatchedOrder := by
          injection hy with h
          exact h.symm
        exact hcur
      have hrun : run cfg sr segments st (c :: cs) =
          ((run cfg sr segments (step cfg sr segments st c).1 cs).1,
            (step cfg sr segments st c).2 ::
              (run cfg sr segments (step cfg sr segments st c).1 cs).2) := rfl
      cases hm : stepMatched cfg sr segments st c with
      | false =>
          have hmf : (step cfg sr segments st c).2.matched = false := by
            rw [step_matched_field]; exact hm
          have hacc : acceptedOrders (run cfg sr segments st (c :: cs)).2 =
              acceptedOrders (run cfg sr segments (step cfg sr segments st c).1 cs).2 := by
            rw [hrun]
            simp [acceptedOrders, List.filterMap_cons, hmf]
          have hst : (step cfg sr segments st c).1.lastMatchedOrder =
              st.lastMatchedOrder := by
            rw [step_not_matched cfg sr segments st c hm]
          refine ⟨hchain, ?_, ?_⟩
          · rw [hacc]; exact ih.2.1
          · intro m hmm
            rw [hacc] at hmm
            have := ih.2.2 m hmm
            rw [hst] at this
            exact this
      | true =>
          obtain ⟨s, hseg, hlt, hnz, hth, hstep⟩ :=
            step_of_matched cfg sr segments st c hm
          have hmt : (step cfg sr segments st c).2.matched = true := by
            rw [step_matched_field]; exact hm
          have hsegp : (step cfg sr segments st c).2.segment = some (segOut s) := by
            rw [hstep]
          have hstlast : (step cfg sr segments st c).1.lastMatchedOrder =
              s.segment_order := by
            rw [hstep]
          have hacc : acceptedOrders (run cfg sr segments st (c :: cs)).2 =
              s.segment_order ::
                acceptedOrders (run cfg sr segments (step cfg sr segments st c).1 cs).2 := by
            rw [hrun]
            simp [acceptedOrders, List.filterMap_cons, hmt, hsegp, segOut]
          refine ⟨hchain, ?_, ?_⟩
          · rw [hacc]
            refine List.chain'_cons'.mpr ⟨?_, ih.2.1⟩
            intro y hy
            have hymem := List.mem_of_mem_head? hy
            have := ih.2.2 y hymem
            rw [hstlast] at this
            exact this
          · intro m hmm
            rw [hacc] at hmm
            rcases List.mem_cons.mp hmm with rfl | hmm'
            · exact hlt
            · have := ih.2.2 m hmm'
              rw [hstlast] at this
              exact lt_trans hlt this

/-- C1 (claim theorem): from the initial session state (cursor `-1`, empty
buffer), for every configuration, similarity oracle, segment list and chunk
sequence, the cursor trace is monotonically non-decreasing and the accepted
`segment_order` values are strictly increasing. -/
theorem c1_cursor_monotone (cfg : Config) (sr : String → String → ℚ)
    (segments : List Segment) (chunks : List String) :
    initState.lastMatchedOrder = -1 ∧
    List.Chain' (· ≤ ·) (runCursors cfg sr segments initState chunks) ∧
    List.Chain' (· < ·) (acceptedOrders (run cfg sr segments initState chunks).2) := by
  have h := run_invariant cfg sr segments chunks initState
  exact ⟨rfl, h.1, h.2.1⟩

/-! ### Reference-count lemmas (C8) -/

theorem runClients_from_nonneg :
    ∀ (ops : List ClientOp) (n : ℤ), 0 ≤ n → 0 ≤ ops.foldl applyClientOp n
  | [], n, h => h
  | op :: ops, n, h => by
      have hstep : 0 ≤ applyClientOp n op := by
        cases op with
        | acquire => simp only [applyClientOp]; omega
        | release =>
            simp only [applyClientOp]
            split <;> omega
      simpa using runClients_from_nonneg ops (applyClientOp n op) hstep

/-- C8 (claim theorem): the connected-client count never becomes negative
under any serialized interleaving of connects and disconnects, and a
disconnect performed at count `0` leaves the count at `0`. -/
theorem c8_refcount_never_negative :
    (∀ ops : List ClientOp, 0 ≤ runClients ops) ∧
    applyClientOp 0 ClientOp.release = 0 := by
  constructor
  · intro ops
    exact runClients_from_nonneg ops 0 le_rfl
  · simp [applyClientOp]

/-! ### Payload projections and further step lemmas -/

theorem round3_zero : round3 0 = 0 := by
  have h : roundHalfEven 0 = 0 := by
    unfold roundHalfEven
    norm_num
  unfold round3
  norm_num [h]

/-- The fields of the emitted payload that the matched branch never touches. -/
theorem step_payload_proj (cfg : Config) (sr : String → String → ℚ)
    (segments : List Segment) (st : SessionState) (c : String) :
    (step cfg sr segments st c).2.spoken = c ∧
    (step cfg sr segments st c).2.buffer_text = stepBufText cfg st c ∧
    (step cfg sr segments st c).2.score = round3 (stepCand cfg sr segments st c).score ∧
    (step cfg sr segments st c).2.threshold = cfg.thresh ∧
    (step cfg sr segments st c).2.candidate_id = (stepCand cfg sr segments st c).seg_id ∧
    (step cfg sr segments st c).2.candidate_order = (stepCand cfg sr segments st c).seg_order := by
  unfold step
  split <;> simp [basePayload]

/-- C6 (claim theorem): each cycle invokes the matcher twice over the same
lookahead window — once on the rolling-buffer snapshot, once on the single
latest chunk — and the chosen candidate is the higher-scoring of the two,
the buffer candidate winning ties; the emitted payload carries the chosen
candidate's id, order and (rounded) score. -/
theorem c6_dual_candidate (cfg : Config) (sr : String → String → ℚ)
    (segments : List Segment) (st : SessionState) (c : String) :
    let rbuf := match_spoken_to_segment sr (stepBufText cfg st c) (stepWindow cfg segments st) 0
    let rsingle := match_spoken_to_segment sr c (stepWindow cfg segments st) 0
    stepCand cfg sr segments st c = (if rsingle.score ≤ rbuf.score then rbuf else rsingle) ∧
    (stepCand cfg sr segments st c).score = max rbuf.score rsingle.score ∧
    (rbuf.score = rsingle.score → stepCand cfg sr segments st c = rbuf) ∧
    (step cfg sr segments st c).2.candidate_id = (stepCand cfg sr segments st c).seg_id ∧
    (step cfg sr segments st c).2.candidate_order = (stepCand cfg sr segments st c).seg_order ∧
    (step cfg sr segments st c).2.score = round3 (stepCand cfg sr segments st c).score := by
  intro rbuf rsingle
  have hproj := step_payload_proj cfg sr segments st c
  refine ⟨rfl, ?_, ?_, hproj.2.2.2.2.1, hproj.2.2.2.2.2, hproj.2.2.1⟩
  · show (chooseCandidate rbuf rsingle).score = max rbuf.score rsingle.score
    unfold chooseCandidate
    by_cases hle : rsingle.score ≤ rbuf.score
    · rw [if_pos hle, max_eq_left hle]
    · rw [if_neg hle, max_eq_right (le_of_not_le hle)]
  · intro hEq
    show chooseCandidate rbuf rsingle = rbuf
    unfold chooseCandidate
    rw [if_pos (le_of_eq hEq.symm)]

/-- C7 (claim theorem): when every segment's order is at most the session
cursor, the lookahead window is empty, both matcher invocations return
`(None, 0.0, None, None)`, the acceptance test rejects, and the cycle still
emits a normal event with `matched = false`, score `0`, no segment and no
skipped segments. -/
theorem c7_empty_window (cfg : Config) (sr : String → String → ℚ)
    (segments : List Segment) (st : SessionState) (c : String)
    (h : ∀ s ∈ segments, s.segment_order ≤ st.lastMatchedOrder) :
    stepWindow cfg segments st = [] ∧
    match_spoken_to_segment sr (stepBufText cfg st c) (stepWindow cfg segments st) 0 =
      ⟨none, 0, none, none⟩ ∧
    match_spoken_to_segment sr c (stepWindow cfg segments st) 0 = ⟨none, 0, none, none⟩ ∧
    (step cfg sr segments st c).2.matched = false ∧
    (step cfg sr segments st c).2.score = 0 ∧
    (step cfg sr segments st c).2.segment = none ∧
    (step cfg sr segments st c).2.skipped_segments = [] := by
  have hw : stepWindow cfg segments st = [] := by
    unfold stepWindow lookaheadOf
    have hfil : segments.filter (fun s => decide (st.lastMatchedOrder < s.segment_order)) = [] := by
      rw [List.filter_eq_nil_iff]
      intro s hs
      simpa using h s hs
    simp [hfil]
  have hcand : stepCand cfg sr segments st c = ⟨none, 0, none, none⟩ := by
    unfold stepCand
    rw [hw, match_empty, match_empty]
    rfl
  have hnm : stepMatched cfg sr segments st c = false := by
    unfold stepMatched
    rw [hcand]
  have hstep := step_not_matched cfg sr segments st c hnm
  have hproj := step_payload_proj cfg sr segments st c
  refine ⟨hw, by rw [hw]; exact match_empty sr _ 0, by rw [hw]; exact match_empty sr c 0,
    ?_, ?_, ?_, ?_⟩
  · rw [step_matched_field]; exact hnm
  · rw [hproj.2.2.1, hcand]
    exact round3_zero
  · rw [hstep]
    rfl
  · rw [hstep]
    rfl

/-! ### Catch-up / skip detector lemmas (C3) -/

theorem segOut_injective : Function.Injective segOut := by
  intro a b hab
  cases a
  cases b
  simpa [segOut, SegmentOut.mk.injEq, Segment.mk.injEq] using hab

/-- No integer lies strictly between `k` and `m` when `m ≤ k + 1`, so the
skip list is empty. -/
theorem skippedOf_eq_nil (k m : ℤ) (segments : List Segment) (h : m ≤ k + 1) :
    skippedOf k m segments = [] := by
  unfold skippedOf
  have hfil : segments.filter
      (fun s => decide (k < s.segment_order ∧ s.segment_order < m)) = [] := by
    rw [List.filter_eq_nil_iff]
    intro s _
    simp only [decide_eq_true_eq, not_and]
    intro h1
    omega
  rw [hfil]
  rfl

/-- Over a strictly order-sorted document, the skip list's orders are
strictly increasing. -/
theorem skippedOf_sorted (k m : ℤ) (segments : List Segment)
    (hsort : segments.Pairwise (fun a b => a.segment_order < b.segment_order)) :
    ((skippedOf k m segments).map (fun o => o.order)).Pairwise (· < ·) := by
  unfold skippedOf
  rw [List.map_map, List.pairwise_map]
  exact List.Pairwise.filter _ hsort

/-- Membership in the skip list is exactly "order strictly between the two
cursors" for segments of the document. -/
theorem skippedOf_mem (k m : ℤ) (segments : List Segment) (t : Segment)
    (ht : t ∈ segments) :
    (k < t.segment_order ∧ t.segment_order < m) ↔ segOut t ∈ skippedOf k m segments := by
  unfold skippedOf
  constructor
  · intro hb
    exact List.mem_map_of_mem segOut (List.mem_filter.mpr ⟨ht, by simpa using hb⟩)
  · intro hmem
    obtain ⟨u, hu, huv⟩ := List.mem_map.mp hmem
    obtain rfl : u = t := segOut_injective huv
    simpa using (List.mem_filter.mp hu).2

/-- C3 (claim theorem): on every accepted match the emitted
`skipped_segments` list is exactly `skippedOf old-cursor new-cursor segments`
— a pure function of the old cursor, the accepted segment's order and the
ordered segment sequence — containing precisely the segments whose order
lies strictly between the two cursors, in ascending order. -/
theorem c3_skip_completeness (cfg : Config) (sr : String → String → ℚ)
    (segments : List Segment) (st : SessionState) (c : String)
    (hsort : segments.Pairwise (fun a b => a.segment_order < b.segment_order))
    (hm : (step cfg sr segments st c).2.matched = true) :
    ∃ s, (step cfg sr segments st c).2.segment = some (segOut s) ∧
      st.lastMatchedOrder < s.segment_order ∧
      (step cfg sr segments st c).2.skipped_segments =
        skippedOf st.lastMatchedOrder s.segment_order segments ∧
      (((step cfg sr segments st c).2.skipped_segments).map (fun o => o.order)).Pairwise
        (· < ·) ∧
      ∀ t ∈ segments,
        ((st.lastMatchedOrder < t.segment_order ∧ t.segment_order < s.segment_order) ↔
          segOut t ∈ (step cfg sr segments st c).2.skipped_segments) := by
  rw [step_matched_field] at hm
  obtain ⟨s, hseg, hlt, hnz, hth, hstep⟩ := step_of_matched cfg sr segments st c hm
  have hsk : (step cfg sr segments st c).2.skipped_segments =
      skippedOf st.lastMatchedOrder s.segment_order segments := by
    rw [hstep]
    show (if st.lastMatchedOrder + 1 < s.segment_order then
        skippedOf st.lastMatchedOrder s.segment_order segments else []) = _
    by_cases hj : st.lastMatchedOrder + 1 < s.segment_order
    · rw [if_pos hj]
    · rw [if_neg hj, skippedOf_eq_nil st.lastMatchedOrder s.segment_order segments (by omega)]
  refine ⟨s, ?_, hlt, hsk, ?_, ?_⟩
  · rw [hstep]
  · rw [hsk]
    exact skippedOf_sorted st.lastMatchedOrder s.segment_order segments hsort
  · intro t htmem
    rw [hsk]
    exact skippedOf_mem st.lastMatchedOrder s.segment_order segments t htmem

/-! ### Rejected-match candidate exposure (C9) and blank segments (C10) -/

/-- C9 (claim theorem): on non-empty spoken text and a non-empty window,
when the best score falls below `min_score` the matcher returns
`segment = None` with the best score, yet still exposes the best-scoring
segment's id and order — which are non-`None` exactly when some segment
scored above `0.0`. -/
theorem c9_reject_exposes_candidate (sr : String → String → ℚ) (spoken : String)
    (segs : List Segment) (ms : ℚ)
    (h1 : spoken ≠ "") (h2 : segs ≠ [])
    (h3 : (bestFold sr spoken segs).2 < ms) :
    (match_spoken_to_segment sr spoken segs ms).seg = none ∧
    (match_spoken_to_segment sr spoken segs ms).score = (bestFold sr spoken segs).2 ∧
    ((∃ s ∈ segs, 0 < similarity sr spoken (candOf s)) →
      ∃ t ∈ segs, candOf t ≠ "" ∧
        similarity sr spoken (candOf t) = (match_spoken_to_segment sr spoken segs ms).score ∧
        (∀ u ∈ segs, similarity sr spoken (candOf u) ≤
          (match_spoken_to_segment sr spoken segs ms).score) ∧
        (match_spoken_to_segment sr spoken segs ms).seg_id = some t.segment_id ∧
        (match_spoken_to_segment sr spoken segs ms).seg_order = some t.segment_order) ∧
    ((∀ s ∈ segs, similarity sr spoken (candOf s) ≤ 0) →
      (match_spoken_to_segment sr spoken segs ms).seg_id = none ∧
      (match_spoken_to_segment sr spoken segs ms).seg_order = none) := by
  have hg : ¬(spoken = "" ∨ segs = []) := by
    rintro (h | h)
    · exact h1 h
    · exact h2 h
  have hms : ¬ ms ≤ (bestFold sr spoken segs).2 := not_le.mpr h3
  simp only [match_spoken_to_segment, if_neg hg]
  cases hb : (bestFold sr spoken segs).1 with
  | none =>
      have hz := bestFold_none sr spoken segs hb
      dsimp only
      refine ⟨rfl, rfl, ?_, fun _ => ⟨rfl, rfl⟩⟩
      intro hpos
      obtain ⟨s, hs, hspos⟩ := hpos
      obtain ⟨t, htt⟩ := bestFold_isSome sr spoken segs s hs hspos
      rw [hb] at htt
      exact absurd htt (by simp)
  | some t =>
      have hspec := bestFold_some sr spoken segs t hb
      dsimp only
      rw [if_neg hms]
      refine ⟨rfl, rfl, ?_, ?_⟩
      · intro _
        exact ⟨t, hspec.1, hspec.2.1, hspec.2.2.1.symm,
          fun u hu => bestFold_ub sr spoken segs u hu, rfl, rfl⟩
      · intro hall
        have h0 := hall t hspec.1
        rw [← hspec.2.2.1] at h0
        exact absurd hspec.2.2.2 (not_lt.mpr h0)

/-- C10 (claim theorem): the matcher never returns a blank-text segment
(`malay_text` of `None`, empty, or whitespace-only) — neither as the
accepted match nor as the exposed best candidate id/order. -/
theorem c10_blank_never_candidate (sr : String → String → ℚ) (spoken : String)
    (segs : List Segment) (ms : ℚ) :
    (∀ t, (match_spoken_to_segment sr spoken segs ms).seg = some t → candOf t ≠ "") ∧
    (∀ i, (match_spoken_to_segment sr spoken segs ms).seg_id = some i →
      ∃ t ∈ segs, candOf t ≠ "" ∧ t.segment_id = i ∧
        (match_spoken_to_segment sr spoken segs ms).seg_order = some t.segment_order) := by
  constructor
  · intro t ht
    exact (match_seg_nonblank sr spoken segs ms t ht).2
  · intro i hi
    obtain ⟨t, ht, hnb, hid, hord, _, _⟩ := match_id_source sr spoken segs ms i hi
    exact ⟨t, ht, hnb, hid, hord⟩

/-! ### Partial-boost tiers (C5) -/

/-- The code's overlap fraction `overlap / max(1, len(a_words))` compared
against a bound is, for a non-empty word list, the claim's
"at least `q` of the spoken tokens appear in the candidate". -/
theorem overlapRatio_le_iff (aw bw : List String) (q : ℚ) (haw : aw ≠ []) :
    (q ≤ (aw.countP (fun w => bw.contains w) : ℚ) / (max 1 aw.length : ℚ) ↔
      q * (aw.length : ℚ) ≤ (aw.countP (fun w => bw.contains w) : ℚ)) := by
  have hpos : 0 < aw.length := List.length_pos.mpr haw
  have hq1 : (1 : ℚ) ≤ (aw.length : ℚ) := by exact_mod_cast hpos
  have hq : (0 : ℚ) < (aw.length : ℚ) := by exact_mod_cast hpos
  rw [max_eq_right hq1, le_div_iff₀ hq]

/-- C5 (amended claim theorem): the partial-match boost of the normalized
spoken text against the normalized candidate, *provided the normalized
spoken text is at least 6 characters long*, is +0.25 on a contiguous
substring, else +0.15 when at least 75% of the spoken tokens appear among
the candidate's tokens (counted by membership), +0.10 when at least 50% do,
and nothing below 50%; a normalized spoken text shorter than 6 characters
never receives a boost, substring or not. -/
theorem c5_boost_tiers (spoken cand : String) :
    (6 ≤ (norm spoken).length → pyIn (norm spoken) (norm cand) = true →
      partial_boost (norm spoken) (norm cand) = 1/4) ∧
    (6 ≤ (norm spoken).length → pyIn (norm spoken) (norm cand) = false →
      pySplit (norm spoken) ≠ [] →
      (3 : ℚ) / 4 * ((pySplit (norm spoken)).length : ℚ) ≤
        ((pySplit (norm spoken)).countP (fun w => (pySplit (norm cand)).contains w) : ℚ) →
      partial_boost (norm spoken) (norm cand) = 3/20) ∧
    (6 ≤ (norm spoken).length → pyIn (norm spoken) (norm cand) = false →
      pySplit (norm spoken) ≠ [] →
      ((pySplit (norm spoken)).countP (fun w => (pySplit (norm cand)).contains w) : ℚ) <
        (3 : ℚ) / 4 * ((pySplit (norm spoken)).length : ℚ) →
      (1 : ℚ) / 2 * ((pySplit (norm spoken)).length : ℚ) ≤
        ((pySplit (norm spoken)).countP (fun w => (pySplit (norm cand)).contains w) : ℚ) →
      partial_boost (norm spoken) (norm cand) = 1/10) ∧
    (6 ≤ (norm spoken).length → pyIn (norm spoken) (norm cand) = false →
      pySplit (norm spoken) ≠ [] →
      ((pySplit (norm spoken)).countP (fun w => (pySplit (norm cand)).contains w) : ℚ) <
        (1 : ℚ) / 2 * ((pySplit (norm spoken)).length : ℚ) →
      partial_boost (norm spoken) (norm cand) = 0) ∧
    ((norm spoken).length < 6 → partial_boost (norm spoken) (norm cand) = 0) := by
  refine ⟨?_, ?_, ?_, ?_, ?_⟩
  · intro hlen hin
    simp only [partial_boost]
    rw [if_neg (not_lt.mpr hlen), if_pos hin]
  · intro hlen hnin haw h75
    have hcond := (overlapRatio_le_iff (pySplit (norm spoken)) (pySplit (norm cand))
      (3/4) haw).mpr h75
    simp only [partial_boost]
    rw [if_neg (not_lt.mpr hlen), if_neg (by simp [hnin]), if_pos hcond]
  · intro hlen hnin haw hlt75 h50
    have hncond : ¬((3 : ℚ)/4 ≤
        ((pySplit (norm spoken)).countP (fun w => (pySplit (norm cand)).contains w) : ℚ) /
          (max 1 (pySplit (norm spoken)).length : ℚ)) := by
      intro hc
      exact absurd ((overlapRatio_le_iff _ _ (3/4) haw).mp hc) (not_le.mpr hlt75)
    have hcond := (overlapRatio_le_iff (pySplit (norm spoken)) (pySplit (norm cand))
      (1/2) haw).mpr h50
    simp only [partial_boost]
    rw [if_neg (not_lt.mpr hlen), if_neg (by simp [hnin]), if_neg hncond, if_pos hcond]
  · intro hlen hnin haw hlt50
    have hlenq : (0 : ℚ) ≤ ((pySplit (norm spoken)).length : ℚ) := by positivity
    have hlt75 : ((pySplit (norm spoken)).countP
        (fun w => (pySplit (norm cand)).contains w) : ℚ) <
        (3 : ℚ) / 4 * ((pySplit (norm spoken)).length : ℚ) :=
      lt_of_lt_of_le hlt50 (by nlinarith)
    have hn75 : ¬((3 : ℚ)/4 ≤
        ((pySplit (norm spoken)).countP (fun w => (pySplit (norm cand)).contains w) : ℚ) /
          (max 1 (pySplit (norm spoken)).length : ℚ)) := by
      intro hc
      exact absurd ((overlapRatio_le_iff _ _ (3/4) haw).mp hc) (not_le.mpr hlt75)
    have hn50 : ¬((1 : ℚ)/2 ≤
        ((pySplit (norm spoken)).countP (fun w => (pySplit (norm cand)).contains w) : ℚ) /
          (max 1 (pySplit (norm spoken)).length : ℚ)) := by
      intro hc
      exact absurd ((overlapRatio_le_iff _ _ (1/2) haw).mp hc) (not_le.mpr hlt50)
    simp only [partial_boost]
    rw [if_neg (not_lt.mpr hlen), if_neg (by simp [hnin]), if_neg hn75, if_neg hn50]
  · intro hlen
    simp only [partial_boost]
    rw [if_pos hlen]

/-! ### C2: acceptance test at a zero-order candidate -/

/-- C2 (evaluation at the failing input): with the default configuration and
a fresh session (`last_matched_order = -1`), a candidate segment with
`segment_order = 0` whose score `1.0` clears the `0.45` threshold satisfies
every acceptance condition of the claim — segment non-null, order `0 > -1`,
score above threshold — yet the cycle sets `matched = false`, because
Python's `if chosen_seg and chosen_order and ...` treats the integer `0` as
falsy. -/
theorem c2_order_zero_rejected :
    (stepCand cfg0 srOne [seg0] initState "selamat pagi semua").seg = some seg0 ∧
    (stepCand cfg0 srOne [seg0] initState "selamat pagi semua").seg_order = some 0 ∧
    initState.lastMatchedOrder < 0 ∧
    cfg0.thresh ≤ (stepCand cfg0 srOne [seg0] initState "selamat pagi semua").score ∧
    (step cfg0 srOne [seg0] initState "selamat pagi semua").2.matched = false := by
  with_unfolding_all decide

/-! ### C4: buffer character-cap policy -/

/-- C4 (counterexample): pushing `"bbb"` onto a buffer holding `"aaaa"` with
a character cap of 6 makes the code keep the joined text's last 6 characters
`"aa bbb"` — truncating mid-chunk through the oldest chunk — while the
spec's whole-chunk-dropping policy (the newest chunk `"bbb"` alone is within
the cap) yields `"bbb"`. -/
theorem c4_counterexample :
    (run cfg4 srZero [] initState ["aaaa", "bbb"]).2.map (fun e => e.buffer_text) =
      ["aaaa", "aa bbb"] ∧
    bufferTextSpec 6 ["aaaa", "bbb"] = "bbb" ∧
    ("aa bbb" : String) ≠ "bbb" := by
  with_unfolding_all decide

/-- C4 (amended claim theorem): whenever the joined buffer text exceeds the
(positive) character cap, the emitted `buffer_text` is the *suffix* of the
joined text of length `min (joined length) cap` — i.e. the joined string is
truncated from its start keeping the most recent characters, regardless of
chunk boundaries; whole chunks are dropped only by the chunk-count cap. -/
theorem c4_char_cap_truncates (cfg : Config) (sr : String → String → ℚ)
    (segments : List Segment) (st : SessionState) (c : String)
    (hpos : 0 < cfg.maxChars) :
    ((step cfg sr segments st c).2.buffer_text).data <:+
      (pyStrip (String.intercalate " " (stepChunks cfg st c))).data ∧
    ((step cfg sr segments st c).2.buffer_text).length =
      min (pyStrip (String.intercalate " " (stepChunks cfg st c))).length cfg.maxChars := by
  have hbt := (step_payload_proj cfg sr segments st c).2.1
  rw [hbt]
  unfold stepBufText bufferTextOf
  dsimp only
  by_cases hc : cfg.maxChars <
      (pyStrip (String.intercalate " " (stepChunks cfg st c))).length
  · rw [if_pos hc]
    unfold pyTakeLast
    rw [if_neg (Nat.pos_iff_ne_zero.mp hpos)]
    constructor
    · exact List.drop_suffix _ _
    · show ((pyStrip (String.intercalate " " (stepChunks cfg st c))).data.drop
          ((pyStrip (String.intercalate " " (stepChunks cfg st c))).data.length -
            cfg.maxChars)).length =
          min (pyStrip (String.intercalate " " (stepChunks cfg st c))).length cfg.maxChars
      rw [List.length_drop]
      have hab : (pyStrip (String.intercalate " " (stepChunks cfg st c))).length =
          (pyStrip (String.intercalate " " (stepChunks cfg st c))).data.length := rfl
      rw [hab] at hc ⊢
      omega
  · rw [if_neg hc]
    exact ⟨List.suffix_refl _, (min_eq_left (not_lt.mp hc)).symm⟩

/-! ### C5: the counterexample to the unguarded substring claim -/

/-- C5 (counterexample), two independent failures of the claim as stated.
First, the normalized spoken text `"allah"` *is* a contiguous substring of
the normalized candidate, yet the boost is `0`, not `+0.25`, because the
code first requires the normalized spoken text to be at least 6 characters
long.  Second, all four tokens of `"satu dua tiga empat"` appear in the
candidate `"empat tiga dua satu"` but *not in order* — every common
subsequence of the two token lists (every sublist of the spoken tokens that
is a sublist of the candidate tokens) has length 1 of 4, below the claim's
50% in-order threshold, which promises no boost — yet the code, counting
membership only, grants `+0.15`. -/
theorem c5_counterexample :
    (pyIn (norm "Allah") (norm "syukur kepada Allah") = true ∧
      partial_boost (norm "Allah") (norm "syukur kepada Allah") = 0) ∧
    (pyIn (norm "satu dua tiga empat") (norm "empat tiga dua satu") = false ∧
      partial_boost (norm "satu dua tiga empat") (norm "empat tiga dua satu") = 3/20 ∧
      ∀ l ∈ (pySplit (norm "satu dua tiga empat")).sublists,
        l.Sublist (pySplit (norm "empat tiga dua satu")) →
          2 * l.length < (pySplit (norm "satu dua tiga empat")).length) := by
  with_unfolding_all decide

/-! ### Witnesses -/

set_option maxRecDepth 8000 in
/-- Witness for C3: on the sorted three-segment document, the chunk
`"eeeeee"` is accepted at order 3 from the fresh session, and the theorem
yields the exact skip list (orders 1 and 2). -/
theorem c3_witness :
    segsW.Pairwise (fun a b => a.segment_order < b.segment_order) ∧
    (step cfg0 srOne segsW initState "eeeeee").2.matched = true ∧
    ∃ s, (step cfg0 srOne segsW initState "eeeeee").2.segment = some (segOut s) ∧
      initState.lastMatchedOrder < s.segment_order ∧
      (step cfg0 srOne segsW initState "eeeeee").2.skipped_segments =
        skippedOf initState.lastMatchedOrder s.segment_order segsW ∧
      (((step cfg0 srOne segsW initState "eeeeee").2.skipped_segments).map
        (fun o => o.order)).Pairwise (· < ·) ∧
      ∀ t ∈ segsW,
        ((initState.lastMatchedOrder < t.segment_order ∧
            t.segment_order < s.segment_order) ↔
          segOut t ∈ (step cfg0 srOne segsW initState "eeeeee").2.skipped_segments) :=
  ⟨by decide, by with_unfolding_all decide,
    c3_skip_completeness cfg0 srOne segsW initState "eeeeee" (by decide)
      (by with_unfolding_all decide)⟩

/-- Witness for C4: pushing `"bbb"` onto a buffer holding `"aaaa"` under a
character cap of 6 keeps a length-6 suffix of the joined text. -/
theorem c4_witness :
    0 < cfg4.maxChars ∧
    (((step cfg4 srZero [] ⟨-1, ["aaaa"]⟩ "bbb").2.buffer_text).data <:+
      (pyStrip (String.intercalate " " (stepChunks cfg4 ⟨-1, ["aaaa"]⟩ "bbb"))).data ∧
    ((step cfg4 srZero [] ⟨-1, ["aaaa"]⟩ "bbb").2.buffer_text).length =
      min (pyStrip (String.intercalate " " (stepChunks cfg4 ⟨-1, ["aaaa"]⟩ "bbb"))).length
        cfg4.maxChars) :=
  ⟨by decide, c4_char_cap_truncates cfg4 srZero [] ⟨-1, ["aaaa"]⟩ "bbb" (by decide)⟩

/-- Witness for C5: a six-plus-character normalized spoken fragment that is
a contiguous substring of the candidate receives exactly `+0.25`. -/
theorem c5_witness :
    6 ≤ (norm "bersyukur kepada Allah").length ∧
    pyIn (norm "bersyukur kepada Allah") (norm "kita bersyukur kepada Allah SWT") = true ∧
    partial_boost (norm "bersyukur kepada Allah")
      (norm "kita bersyukur kepada Allah SWT") = 1/4 :=
  ⟨by decide, by decide,
    (c5_boost_tiers "bersyukur kepada Allah" "kita bersyukur kepada Allah SWT").1
      (by decide) (by decide)⟩

/-- Witness for C6: on a fresh session the buffer text equals the single
chunk, the two matcher scores tie, and the buffer candidate is chosen. -/
theorem c6_witness :
    (match_spoken_to_segment srOne (stepBufText cfg0 initState "abcdef")
        (stepWindow cfg0 segsW initState) 0).score =
      (match_spoken_to_segment srOne "abcdef" (stepWindow cfg0 segsW initState) 0).score ∧
    stepCand cfg0 srOne segsW initState "abcdef" =
      match_spoken_to_segment srOne (stepBufText cfg0 initState "abcdef")
        (stepWindow cfg0 segsW initState) 0 :=
  ⟨by with_unfolding_all decide,
    (c6_dual_candidate cfg0 srOne segsW initState "abcdef").2.2.1
      (by with_unfolding_all decide)⟩

/-- Witness for C7: when the only segment's order 1 is at most the cursor 5,
the window is empty and the cycle emits a normal rejected event. -/
theorem c7_witness :
    (∀ s ∈ [seg7], s.segment_order ≤ (⟨5, []⟩ : SessionState).lastMatchedOrder) ∧
    (stepWindow cfg0 [seg7] ⟨5, []⟩ = [] ∧
      match_spoken_to_segment srOne (stepBufText cfg0 ⟨5, []⟩ "xyz")
        (stepWindow cfg0 [seg7] ⟨5, []⟩) 0 = ⟨none, 0, none, none⟩ ∧
      match_spoken_to_segment srOne "xyz" (stepWindow cfg0 [seg7] ⟨5, []⟩) 0 =
        ⟨none, 0, none, none⟩ ∧
      (step cfg0 srOne [seg7] ⟨5, []⟩ "xyz").2.matched = false ∧
      (step cfg0 srOne [seg7] ⟨5, []⟩ "xyz").2.score = 0 ∧
      (step cfg0 srOne [seg7] ⟨5, []⟩ "xyz").2.segment = none ∧
      (step cfg0 srOne [seg7] ⟨5, []⟩ "xyz").2.skipped_segments = []) :=
  ⟨by decide, c7_empty_window cfg0 srOne [seg7] ⟨5, []⟩ "xyz" (by decide)⟩

/-- Witness for C9: one matchable segment scoring `0.7` against a
`min_score` of `0.9` yields a rejected match with `segment = None`. -/
theorem c9_witness :
    ("abcdef" ≠ "") ∧ segs9 ≠ [] ∧ (bestFold srZero "abcdef" segs9).2 < 9/10 ∧
    (match_spoken_to_segment srZero "abcdef" segs9 (9/10)).seg = none :=
  ⟨by decide, by decide, by with_unfolding_all decide,
    (c9_reject_exposes_candidate srZero "abcdef" segs9 (9/10) (by decide) (by decide)
      (by with_unfolding_all decide)).1⟩

/-- Witness for C10: with a whitespace-only segment ahead of a matchable
one, the matcher returns the matchable segment, whose candidate text is
non-blank. -/
theorem c10_witness :
    (match_spoken_to_segment srOne "ab" segs10 0).seg =
      some ⟨6, 2, some "ab", none⟩ ∧
    candOf ⟨6, 2, some "ab", none⟩ ≠ "" :=
  ⟨by with_unfolding_all decide,
    (c10_blank_never_candidate srOne "ab" segs10 0).1 ⟨6, 2, some "ab", none⟩
      (by with_unfolding_all decide)⟩

end SermonAlign
